import Mathlib

/-!
Verification of the object-storage and repository-location core of
`libwyag.py` against its specification.

Byte strings are modelled as `List Nat` (each element a byte value).
Python's slicing, `bytes.find` and `int()` are modelled faithfully,
including negative-index normalisation and `int()`'s tolerance of
surrounding ASCII whitespace, a sign, and underscores between digits.
-/

/-- Python whitespace bytes stripped by `int()`. -/
def isPyWs (b : Nat) : Bool :=
  decide (b = 32) || decide (b = 9) || decide (b = 10) ||
  decide (b = 13) || decide (b = 11) || decide (b = 12)

/-- ASCII decimal digit. -/
def isDigit (b : Nat) : Bool := decide (48 ≤ b) && decide (b ≤ 57)

/-- Normalise a Python index for slicing/searching in a sequence of length
`n`: negative indices count from the end and clamp at `0`; non-negative
ones clamp at `n`. -/
def pyNormIndex (n : Nat) (i : Int) : Nat :=
  if i < 0 then n - (-i).toNat else min i.toNat n

/-- `l[a:b]` with Python semantics. -/
def pySlice (l : List Nat) (a b : Int) : List Nat :=
  (l.take (pyNormIndex l.length b)).drop (pyNormIndex l.length a)

/-- Index of the first occurrence of byte `t`. -/
def findByte : List Nat → Nat → Option Nat
  | [], _ => none
  | b :: rest, t => if b = t then some 0 else (findByte rest t).map (· + 1)

/-- `l.find(bytes([t]), start)` with Python semantics: `-1` when absent. -/
def pyFind (l : List Nat) (t : Nat) (start : Int) : Int :=
  let s := pyNormIndex l.length start
  match findByte (l.drop s) t with
  | some j => ((s + j : Nat) : Int)
  | none => -1

/-- Strip Python whitespace from both ends. -/
def stripWs (l : List Nat) : List Nat :=
  (((l.dropWhile isPyWs).reverse.dropWhile isPyWs)).reverse

/-- Digit run after the first digit; Python allows single underscores
between digits. Accumulates the value. -/
def parseDigits : List Nat → Nat → Option Nat
  | [], acc => some acc
  | b :: rest, acc =>
    if isDigit b then parseDigits rest (acc * 10 + (b - 48))
    else if b = 95 then
      match rest with
      | r :: rest2 =>
        if isDigit r then parseDigits rest2 (acc * 10 + (r - 48)) else none
      | [] => none
    else none

/-- Nonempty unsigned decimal literal. -/
def parseUnsigned (l : List Nat) : Option Nat :=
  match l with
  | [] => none
  | b :: rest => if isDigit b then parseDigits rest (b - 48) else none

/-- Python `int()` on an ASCII byte string: strips whitespace, takes an
optional sign, then a digit run; `none` models the untyped `ValueError`. -/
def pyInt (l : List Nat) : Option Int :=
  match stripWs l with
  | [] => none
  | b :: rest =>
    if b = 43 then (parseUnsigned rest).map fun n => (n : Int)
    else if b = 45 then (parseUnsigned rest).map fun n => -(n : Int)
    else (parseUnsigned (b :: rest)).map fun n => (n : Int)

/-- Digit-producing loop for `natToDec`, structurally recursive on a fuel
bound so that it reduces in the kernel. -/
def natToDecAux : Nat → Nat → List Nat → List Nat
  | 0, _, acc => acc
  | fuel + 1, n, acc =>
    if n < 10 then (48 + n) :: acc
    else natToDecAux fuel (n / 10) ((48 + n % 10) :: acc)

/-- `str(n).encode()`: ASCII decimal digits of `n`, most significant
first, no sign, no leading zeros (`"0"` for zero). -/
def natToDec (n : Nat) : List Nat := natToDecAux (n + 1) n []

/-- Value of a digit list, most significant first. -/
def decToNat (l : List Nat) : Nat := l.foldl (fun a b => a * 10 + (b - 48)) 0

/-! ## The object model

The four object kinds of `libwyag.py`. Only `GitBlob` is defined in the
source; `GitCommit`, `GitTree` and `GitTag` are referenced by the
dispatch in `object_read` and `hash_object` but defined nowhere in the
repository. -/

inductive ObjKind
  | blob
  | tree
  | commit
  | tag
deriving DecidableEq

/-- The `fmt` byte label of each kind (`b"blob"` etc.). -/
def kindLabel : ObjKind → List Nat
  | .blob => [98, 108, 111, 98]
  | .tree => [116, 114, 101, 101]
  | .commit => [99, 111, 109, 109, 105, 116]
  | .tag => [116, 97, 103]

/-- An in-memory typed object. Modelled from the spec: the source only
defines `GitBlob` (payload = the raw bytes given to `deserialize`); the
spec declares tree/commit/tag "structurally-identical extensions" whose
payload is likewise the raw decoded bytes, so all four kinds carry an
opaque byte payload. -/
structure GitObj where
  kind : ObjKind
  payload : List Nat
deriving DecidableEq

/-- Outcome of decoding a raw object byte string (`object_read` after
decompression). `valueError` models the untyped exception raised by
`int()` on a bad length slice, distinct from the two typed failures. -/
inductive DecodeResult
  | ok (o : GitObj)
  | malformed
  | unknownType
  | valueError
deriving DecidableEq

/-- `x = raw.find(b" ")` of `object_read`. -/
def objX (raw : List Nat) : Int := pyFind raw 32 0

/-- `y = raw.find(b"\x00", x)` of `object_read`. -/
def objY (raw : List Nat) : Int := pyFind raw 0 (objX raw)

/-- The parsing/dispatch part of `object_read` (source lines 190–210),
applied to the decompressed bytes. Modelled from the spec: the
commit/tree/tag constructors invoked by the dispatch are absent from the
repository; per the spec each behaves like `GitBlob`, storing
`raw[y+1:]` as its payload. -/
def object_parse (raw : List Nat) : DecodeResult :=
  match pyInt (pySlice raw (objX raw) (objY raw)) with
  | none => .valueError
  | some size =>
    if size ≠ (raw.length : Int) - objY raw - 1 then .malformed
    else
      if pySlice raw 0 (objX raw) = kindLabel .commit then
        .ok ⟨.commit, pySlice raw (objY raw + 1) raw.length⟩
      else if pySlice raw 0 (objX raw) = kindLabel .tree then
        .ok ⟨.tree, pySlice raw (objY raw + 1) raw.length⟩
      else if pySlice raw 0 (objX raw) = kindLabel .tag then
        .ok ⟨.tag, pySlice raw (objY raw + 1) raw.length⟩
      else if pySlice raw 0 (objX raw) = kindLabel .blob then
        .ok ⟨.blob, pySlice raw (objY raw + 1) raw.length⟩
      else .unknownType

/-- The header construction of `object_write` (source line 217):
`obj.fmt + b" " + str(len(data)).encode() + b"\x00" + data`. -/
def object_encode (k : ObjKind) (p : List Nat) : List Nat :=
  kindLabel k ++ 32 :: (natToDec p.length ++ 0 :: p)

/-! ## Concrete byte strings used by the claims -/

def helloWorldBytes : List Nat := [104, 101, 108, 108, 111, 32, 119, 111, 114, 108, 100]

def shortBytes : List Nat := [115, 104, 111, 114, 116]

/-- `b"blob 5\x00short"`. -/
def blob5short : List Nat := [98, 108, 111, 98, 32, 53, 0, 115, 104, 111, 114, 116]

/-- `b"blob 10\x00short"`. -/
def blob10short : List Nat := [98, 108, 111, 98, 32, 49, 48, 0, 115, 104, 111, 114, 116]

/-- `b"blob  5\x00short"` (two spaces). -/
def blobTwoSpace : List Nat := [98, 108, 111, 98, 32, 32, 53, 0, 115, 104, 111, 114, 116]

/-- `b"blob +5\x00short"`. -/
def blobPlus : List Nat := [98, 108, 111, 98, 32, 43, 53, 0, 115, 104, 111, 114, 116]

/-- `b"blob 5x"` — no NUL anywhere. -/
def blob5x : List Nat := [98, 108, 111, 98, 32, 53, 120]

/-- `b"blob 7x"` — no NUL anywhere. -/
def blob7x : List Nat := [98, 108, 111, 98, 32, 55, 120]

/-- `b"blobx"` — neither space nor NUL. -/
def blobxBytes : List Nat := [98, 108, 111, 98, 120]

/-! ## SHA-1 (`hashlib.sha1(...).hexdigest()`)

A direct executable model of SHA-1 over byte lists, producing the
40-character lowercase hexadecimal digest as ASCII bytes. -/

/-- Truncate to 32 bits. -/
def w32 (x : Nat) : Nat := x % 4294967296

/-- 32-bit left rotation by `n`. -/
def rotl (n x : Nat) : Nat := w32 ((x <<< n) ||| (x >>> (32 - n)))

/-- Big-endian bytes of `n`, exactly `k` of them. -/
def natToBytesBE : Nat → Nat → List Nat
  | 0, _ => []
  | k + 1, n => natToBytesBE k (n / 256) ++ [n % 256]

/-- Group bytes into big-endian 32-bit words. -/
def bytesToWords : List Nat → List Nat
  | a :: b :: c :: d :: rest => (((a * 256 + b) * 256 + c) * 256 + d) :: bytesToWords rest
  | _ => []

/-- SHA-1 padding: `0x80`, zeros to 56 mod 64, 8-byte big-endian bit length. -/
def sha1pad (msg : List Nat) : List Nat :=
  msg ++ 128 :: (List.replicate ((119 - msg.length % 64) % 64) 0 ++ natToBytesBE 8 (8 * msg.length))

/-- 64-byte chunking loop, structurally recursive on a fuel bound. -/
def chunks64Aux : Nat → List Nat → List (List Nat)
  | 0, _ => []
  | fuel + 1, l => if l.length = 0 then [] else l.take 64 :: chunks64Aux fuel (l.drop 64)

/-- Split into 64-byte chunks. -/
def chunks64 (l : List Nat) : List (List Nat) := chunks64Aux l.length l

/-- One message-schedule extension step: appends
`rotl1 (w[i-3] ^^^ w[i-8] ^^^ w[i-14] ^^^ w[i-16])`. -/
def extendStep (ws : List Nat) : List Nat :=
  ws ++ [rotl 1 ((((ws.getD (ws.length - 3) 0) ^^^ (ws.getD (ws.length - 8) 0)) ^^^
      (ws.getD (ws.length - 14) 0)) ^^^ (ws.getD (ws.length - 16) 0))]

/-- Apply `extendStep` `k` times (64 times turns 16 words into 80). -/
def sha1schedule (ws : List Nat) : Nat → List Nat
  | 0 => ws
  | k + 1 => extendStep (sha1schedule ws k)

/-- The round function of round `i`. -/
def sha1f (i b c d : Nat) : Nat :=
  if i < 20 then (b &&& c) ||| ((4294967295 ^^^ b) &&& d)
  else if i < 40 then (b ^^^ c) ^^^ d
  else if i < 60 then ((b &&& c) ||| (b &&& d)) ||| (c &&& d)
  else (b ^^^ c) ^^^ d

/-- The round constant of round `i`. -/
def sha1k (i : Nat) : Nat :=
  if i < 20 then 1518500249
  else if i < 40 then 1859775393
  else if i < 60 then 2400959708
  else 3395469782

/-- One compression round on the state `(a, b, c, d, e)`. -/
def sha1step (st : Nat × Nat × Nat × Nat × Nat) (iw : Nat × Nat) :
    Nat × Nat × Nat × Nat × Nat :=
  let a := st.1
  let b := st.2.1
  let c := st.2.2.1
  let d := st.2.2.2.1
  let e := st.2.2.2.2
  (w32 (rotl 5 a + sha1f iw.1 b c d + e + sha1k iw.1 + iw.2), a, rotl 30 b, c, d)

/-- Process one 64-byte block. -/
def sha1block (h : Nat × Nat × Nat × Nat × Nat) (block : List Nat) :
    Nat × Nat × Nat × Nat × Nat :=
  let ws := sha1schedule (bytesToWords block) 64
  let r := ((List.range 80).zip ws).foldl sha1step h
  (w32 (h.1 + r.1), w32 (h.2.1 + r.2.1), w32 (h.2.2.1 + r.2.2.1),
   w32 (h.2.2.2.1 + r.2.2.2.1), w32 (h.2.2.2.2 + r.2.2.2.2))

/-- SHA-1 digest: 20 bytes. -/
def sha1 (msg : List Nat) : List Nat :=
  let st := (chunks64 (sha1pad msg)).foldl sha1block
    (1732584193, 4023233417, 2562383102, 271733878, 3285377520)
  natToBytesBE 4 st.1 ++ natToBytesBE 4 st.2.1 ++ natToBytesBE 4 st.2.2.1 ++
    natToBytesBE 4 st.2.2.2.1 ++ natToBytesBE 4 st.2.2.2.2

/-- Lowercase hex character of a nibble. -/
def hexDigitByte (n : Nat) : Nat := if n < 10 then 48 + n else 87 + n

/-- Two hex characters per byte. -/
def bytesToHex : List Nat → List Nat
  | [] => []
  | b :: rest => hexDigitByte (b / 16) :: hexDigitByte (b % 16) :: bytesToHex rest

/-- `hashlib.sha1(msg).hexdigest()` as ASCII bytes. -/
def sha1hexBytes (msg : List Nat) : List Nat := bytesToHex (sha1 msg)

/-- Lowercase hexadecimal character. -/
def isHexDigit (b : Nat) : Bool :=
  (decide (48 ≤ b) && decide (b ≤ 57)) || (decide (97 ≤ b) && decide (b ≤ 102))

/-! ## The object store (`object_write` / `object_read`)

The `objects/` subtree is modelled as an association list from the hex
key to the stored file bytes (the on-disk path `objects/<2>/<38>` is a
bijective image of the key, so the key itself indexes the file). A new
binding is consed on; the newest binding is the file's content. `zlib`
is an external collaborator, modelled as an arbitrary pair of functions
passed in as a parameter. -/

/-- External compression library (`zlib.compress` / `zlib.decompress`). -/
structure Codec where
  compress : List Nat → List Nat
  decompress : List Nat → List Nat

/-- The identity codec, a legitimate instantiation for concrete runs. -/
def idCodec : Codec := ⟨fun l => l, fun l => l⟩

/-- File map of the `objects/` directory: key ↦ stored bytes. -/
abbrev ObjStore := List (List Nat × List Nat)

/-- `obj.serialize()`. For `GitBlob` the source returns `blobdata`; the
other three kinds are modelled from the spec as structurally identical. -/
def objSerialize (o : GitObj) : List Nat := o.payload

/-- `object_write(obj, repo)` (source lines 212–230): serialize, prepend
the header, hash; if a repo is given and no file exists at the key's
path, compress and write; return the hex key. -/
def object_write (z : Codec) (obj : GitObj) (repo : Option ObjStore) :
    List Nat × Option ObjStore :=
  let result := object_encode obj.kind (objSerialize obj)
  let sha := sha1hexBytes result
  match repo with
  | none => (sha, none)
  | some st =>
    if (st.lookup sha).isSome then (sha, some st)
    else (sha, some ((sha, z.compress result) :: st))

/-- `object_read(repo, sha)` (source lines 174–210): `none` when no file
exists at the key's path, otherwise decompress and parse. -/
def object_read (z : Codec) (st : ObjStore) (sha : List Nat) : Option DecodeResult :=
  match st.lookup sha with
  | none => none
  | some content => some (object_parse (z.decompress content))

/-! ## The filesystem model for `repo_create` and `repo_find`

Paths are lists of name components below the filesystem root (already
canonical: `os.path.realpath` is the identity on them, and the parent of
the root is the root itself). A filesystem is a set of directory paths
plus a map from file paths to text contents. -/

abbrev FsPath := List String

structure FS where
  dirs : List FsPath
  files : List (FsPath × String)
deriving DecidableEq

def FS.isDir (fs : FS) (p : FsPath) : Bool := decide (p ∈ fs.dirs)

def FS.fileKeys (fs : FS) : List FsPath := fs.files.map Prod.fst

def FS.isFile (fs : FS) (p : FsPath) : Bool := decide (p ∈ fs.fileKeys)

/-- `os.path.exists`. -/
def FS.existsPath (fs : FS) (p : FsPath) : Bool := fs.isDir p || fs.isFile p

/-- Every recorded path. -/
def FS.allPaths (fs : FS) : List FsPath := fs.dirs ++ fs.fileKeys

/-- `os.listdir(p)` is non-empty: some recorded path lies strictly below
`p`. -/
def FS.hasChild (fs : FS) (p : FsPath) : Bool :=
  decide (∃ q ∈ fs.allPaths, p ≠ q ∧ p <+: q)

/-- The state update of a successful `os.makedirs`: the directory and
every missing ancestor become recorded directories. -/
def FS.mkdirChain (fs : FS) (p : FsPath) : FS := { fs with dirs := p.inits ++ fs.dirs }

/-- `os.makedirs(p)` with the default `exist_ok=False`: fails (Python
raises `FileExistsError` naming `p`) when `p` itself already exists,
and fails (Python raises `NotADirectoryError` out of the shallowest
attempted `mkdir`, naming the file component's child) when some
component of `p` exists as a regular file; on failure nothing has been
created, since `os.makedirs` works top-down and the failing `mkdir` is
the shallowest one. Otherwise creates `p` and all its missing
ancestors. -/
def FS.makedirs (fs : FS) (p : FsPath) : Except FsPath FS :=
  if fs.existsPath p then .error p
  else
    match p.inits.find? (fun q => fs.isFile q) with
    | some q => .error (p.take (q.length + 1))
    | none => .ok (fs.mkdirChain p)

/-- `open(p, "w")`: create or truncate; the new binding shadows any
older one. -/
def FS.writeFile (fs : FS) (p : FsPath) (c : String) : FS :=
  { fs with files := (p, c) :: fs.files }

/-- Well-formedness of a filesystem snapshot: no path is both file and
directory, and every strict ancestor of a recorded path is a directory. -/
def FS.wf (fs : FS) : Prop :=
  (∀ p ∈ fs.fileKeys, p ∉ fs.dirs) ∧
  (∀ p ∈ fs.allPaths, ∀ q ∈ p.inits, q ≠ p → q ∈ fs.dirs)

def gitDirName : String := ".git"

/-- Errors escaping the path layer: `repo_dir`'s own
"Not a directory {path}" exception for an existing non-directory leaf,
or an `OSError` propagating out of `os.makedirs`. -/
inductive PathErr
  | notADirectory (p : FsPath)
  | osError (p : FsPath)
deriving DecidableEq

/-- `repo_dir(repo, *path, mkdir=True)` (source lines 59–76) at an
absolute path: an existing non-directory raises, an existing directory
is returned, a missing path is created via `os.makedirs` (whose own
failures propagate). -/
def repo_dir (fs : FS) (p : FsPath) : Except PathErr FS :=
  if fs.existsPath p then
    (if fs.isDir p then .ok fs else .error (.notADirectory p))
  else
    match fs.makedirs p with
    | .error q => .error (.osError q)
    | .ok fs' => .ok fs'

/-- The errors `repo_create` can surface. -/
inductive CreateErr
  | pathErr (e : PathErr)       -- raised inside repo_dir / os.makedirs
  | notDirectory                -- "{path} is not a directory!"
  | notEmpty                    -- "{path} is not empty!"
deriving DecidableEq

def descriptionText : String :=
  "Unnamed repository; edit this file 'description' to name the repository.\n"

def headText : String := "ref: refs/heads/master\n"

/-- The exact text `configparser` writes for `repo_default_config()`. -/
def configText : String :=
  "[core]\nrepositoryformatversion = 0\nfilemode = false\nbare = false\n\n"

/-- The skeleton-building block of `repo_create` (source lines 104–119):
the four `repo_dir(..., mkdir=True)` calls followed by the three file
writes (their parent, the gitdir, is a directory by then, so the
`repo_file` checks inside succeed). -/
def repo_create_dirs (gitdir : FsPath) (fs1 : FS) : Except CreateErr FS :=
  match repo_dir fs1 (gitdir ++ ["branches"]) with
  | .error e => .error (.pathErr e)
  | .ok fs2 =>
    match repo_dir fs2 (gitdir ++ ["objects"]) with
    | .error e => .error (.pathErr e)
    | .ok fs3 =>
      match repo_dir fs3 (gitdir ++ ["refs", "tags"]) with
      | .error e => .error (.pathErr e)
      | .ok fs4 =>
        match repo_dir fs4 (gitdir ++ ["refs", "heads"]) with
        | .error e => .error (.pathErr e)
        | .ok fs5 =>
          .ok (((fs5.writeFile (gitdir ++ ["description"]) descriptionText).writeFile
              (gitdir ++ ["HEAD"]) headText).writeFile
              (gitdir ++ ["config"]) configText)

/-- `repo_create(path)` (source lines 89–121). The call
`GitRepository(path, force=True)` reaches `repo_dir(repo)` through
`repo_file(repo, "config")`, which raises "Not a directory" when the
gitdir path exists and is not a directory; reading an existing config
file has no effect modelled here. Then the worktree guards run and the
skeleton is built. -/
def repo_create (fs : FS) (path : FsPath) : Except CreateErr FS :=
  let gitdir := path ++ [gitDirName]
  if fs.existsPath gitdir && !fs.isDir gitdir then .error (.pathErr (.notADirectory gitdir))
  else
    let step1 : Except CreateErr FS :=
      if fs.existsPath path then
        if !fs.isDir path then .error .notDirectory
        else if fs.existsPath gitdir && fs.hasChild gitdir then .error .notEmpty
        else .ok fs
      else
        match fs.makedirs path with
        | .error q => .error (.pathErr (.osError q))
        | .ok fs0 => .ok fs0
    match step1 with
    | .error e => .error e
    | .ok fs1 => repo_create_dirs gitdir fs1

/-- The filesystem produced by `repo_create` on a fresh path. -/
def skeletonFS (fs : FS) (path : FsPath) : FS :=
  { dirs := (path ++ [gitDirName] ++ ["refs", "heads"]).inits ++
      ((path ++ [gitDirName] ++ ["refs", "tags"]).inits ++
      ((path ++ [gitDirName] ++ ["objects"]).inits ++
      ((path ++ [gitDirName] ++ ["branches"]).inits ++
      (path.inits ++ fs.dirs)))),
    files := (path ++ [gitDirName] ++ ["config"], configText) ::
      (path ++ [gitDirName] ++ ["HEAD"], headText) ::
      (path ++ [gitDirName] ++ ["description"], descriptionText) :: fs.files }

/-! ## `repo_find` -/

/-- Canonical parent: `os.path.realpath(os.path.join(path, ".."))`. The
parent of the root is the root. -/
def parentPath (p : FsPath) : FsPath := p.dropLast

/-- What a `repo_find` call can produce when it returns at all. The
`found` outcome marks reaching `return GitRepository(path)`; the
constructor's configuration validation is not in question in the claims
about the walk. -/
inductive FindOutcome
  | found (root : FsPath)
  | notFound   -- returns None
  | errNoGit   -- raises "No git directory."
deriving DecidableEq

/-- `repo_find(path, required)` (source lines 123–142), with an explicit
fuel bound; `none` means the recursion has not returned within `fuel`
calls. Faithful to the source: line 142 recurses on `path` itself — the
computed `parent` is only compared against `path`, never recursed on. -/
def repo_find_fuel (fs : FS) : Nat → FsPath → Bool → Option FindOutcome
  | 0, _, _ => none
  | fuel + 1, path, required =>
    if fs.isDir (path ++ [gitDirName]) then some (.found path)
    else if parentPath path = path then
      (if required then some .errNoGit else some .notFound)
    else repo_find_fuel fs fuel path required

/-- Modelled from the spec: `discover` "walks upward from startPath …
testing at each level whether a metadata directory exists", terminating
"when the resolved parent equals the current path". Identical to
`repo_find_fuel` except that the recursion descends to the parent. -/
def discover_spec (fs : FS) : Nat → FsPath → Bool → Option FindOutcome
  | 0, _, _ => none
  | fuel + 1, path, required =>
    if fs.isDir (path ++ [gitDirName]) then some (.found path)
    else if parentPath path = path then
      (if required then some .errNoGit else some .notFound)
    else discover_spec fs fuel (parentPath path) required

/-- A store initialized at `/r`, with the working directory `/r/a/b/c`
three levels below it. -/
def storeFS : FS :=
  { dirs := [[], ["r"], ["r", gitDirName], ["r", "a"], ["r", "a", "b"], ["r", "a", "b", "c"]],
    files := [(["r", gitDirName, "config"], configText)] }

/-- A filesystem with no metadata directory anywhere. -/
def noGitFS : FS := { dirs := [[], ["a"]], files := [] }

deriving instance DecidableEq for Except

instance (fs : FS) : Decidable fs.wf := by unfold FS.wf; exact inferInstance

/-! ## List and digit lemmas -/

theorem takeLenApp {α : Type} : ∀ (a l : List α), (a ++ l).take a.length = a
  | [], _ => rfl
  | x :: xs, l => by simp [List.take_succ_cons, takeLenApp xs l]

theorem dropLenApp {α : Type} : ∀ (a l : List α), (a ++ l).drop a.length = l
  | [], _ => rfl
  | x :: xs, l => by simp [List.drop_succ_cons, dropLenApp xs l]

theorem takeLenAddApp {α : Type} :
    ∀ (a l : List α) (k : Nat), (a ++ l).take (a.length + k) = a ++ l.take k
  | [], _, _ => by simp
  | x :: xs, l, k => by
    simp only [List.cons_append, List.length_cons, Nat.succ_add, List.take_succ_cons,
      takeLenAddApp xs l k]

theorem dropLenAddApp {α : Type} :
    ∀ (a l : List α) (k : Nat), (a ++ l).drop (a.length + k) = l.drop k
  | [], _, _ => by simp
  | x :: xs, l, k => by
    simp only [List.cons_append, List.length_cons, Nat.succ_add, List.drop_succ_cons,
      dropLenAddApp xs l k]

theorem findByte_app {t : Nat} : ∀ (a l : List Nat), (∀ b ∈ a, b ≠ t) →
    findByte (a ++ t :: l) t = some a.length
  | [], l, _ => by simp [findByte]
  | x :: xs, l, h => by
    have hx : x ≠ t := h x (by simp)
    simp [findByte, hx, findByte_app xs l (fun b hb => h b (List.mem_cons_of_mem _ hb))]

theorem pyNormIndex_cast (n k : Nat) : pyNormIndex n (k : Int) = min k n := by
  unfold pyNormIndex
  rw [if_neg (by omega), Int.toNat_natCast]

theorem natToDecAux_fuel : ∀ (f1 f2 n : Nat) (acc : List Nat), n < f1 → n < f2 →
    natToDecAux f1 n acc = natToDecAux f2 n acc := by
  intro f1
  induction f1 with
  | zero => intro f2 n acc h1 _; omega
  | succ f ih =>
    intro f2 n acc h1 h2
    match f2, h2 with
    | g + 1, h2 =>
      by_cases hn : n < 10
      · simp [natToDecAux, hn]
      · have hdiv : n / 10 < n := Nat.div_lt_self (by omega) (by omega)
        simp only [natToDecAux, if_neg hn]
        exact ih g (n / 10) _ (by omega) (by omega)

theorem natToDecAux_acc : ∀ (fuel n : Nat) (acc : List Nat), n < fuel →
    natToDecAux fuel n acc = natToDecAux fuel n [] ++ acc := by
  intro fuel
  induction fuel with
  | zero => intro n acc h; omega
  | succ f ih =>
    intro n acc h
    by_cases hn : n < 10
    · simp [natToDecAux, hn]
    · have hdiv : n / 10 < n := Nat.div_lt_self (by omega) (by omega)
      have hfuel : n / 10 < f := by omega
      simp only [natToDecAux, if_neg hn]
      rw [ih (n / 10) ((48 + n % 10) :: acc) hfuel, ih (n / 10) [48 + n % 10] hfuel]
      simp

/-- One-step unfolding of `natToDec`, recovering the natural recursion. -/
theorem natToDec_eq (n : Nat) :
    natToDec n = if n < 10 then [48 + n] else natToDec (n / 10) ++ [48 + n % 10] := by
  by_cases hn : n < 10
  · rw [if_pos hn]
    unfold natToDec
    conv_lhs => rw [natToDecAux.eq_def]
    simp [hn]
  · have hdiv : n / 10 < n := Nat.div_lt_self (by omega) (by omega)
    rw [if_neg hn]
    unfold natToDec
    have h1 : natToDecAux (n + 1) n [] = natToDecAux n (n / 10) [48 + n % 10] := by
      conv_lhs => rw [natToDecAux.eq_def]
      simp [hn]
    rw [h1, natToDecAux_fuel n (n / 10 + 1) (n / 10) _ (by omega) (by omega),
      natToDecAux_acc (n / 10 + 1) (n / 10) _ (by omega)]

theorem natToDec_digits (n : Nat) : ∀ b ∈ natToDec n, isDigit b = true := by
  induction n using Nat.strong_induction_on with
  | _ n ih =>
    rw [natToDec_eq]
    by_cases hn : n < 10
    · simp only [if_pos hn, List.mem_singleton]
      intro b hb
      subst hb
      simp [isDigit]
      omega
    · have hdiv : n / 10 < n := Nat.div_lt_self (by omega) (by omega)
      simp only [if_neg hn, List.mem_append, List.mem_singleton]
      intro b hb
      rcases hb with hb | hb
      · exact ih (n / 10) hdiv b hb
      · subst hb
        have := Nat.mod_lt n (show 0 < 10 by omega)
        simp [isDigit]
        omega

theorem natToDec_ne_nil (n : Nat) : natToDec n ≠ [] := by
  rw [natToDec_eq]
  by_cases hn : n < 10 <;> simp [hn]

theorem decToNat_natToDec (n : Nat) : decToNat (natToDec n) = n := by
  induction n using Nat.strong_induction_on with
  | _ n ih =>
    rw [natToDec_eq]
    by_cases hn : n < 10
    · simp [if_pos hn, decToNat]
    · have hdiv : n / 10 < n := Nat.div_lt_self (by omega) (by omega)
      simp only [if_neg hn, decToNat, List.foldl_append, List.foldl_cons, List.foldl_nil]
      have : List.foldl (fun a b => a * 10 + (b - 48)) 0 (natToDec (n / 10)) = n / 10 :=
        ih (n / 10) hdiv
      rw [this]
      omega

theorem digit_props {b : Nat} (h : isDigit b = true) :
    isPyWs b = false ∧ b ≠ 0 ∧ b ≠ 32 ∧ b ≠ 43 ∧ b ≠ 45 ∧ b ≠ 95 := by
  simp [isDigit] at h
  simp [isPyWs]
  omega

theorem dropWhile_no {p : Nat → Bool} : ∀ (l : List Nat), (∀ b ∈ l, p b = false) →
    l.dropWhile p = l
  | [], _ => rfl
  | x :: xs, h => by
    have hx : p x = false := h x (by simp)
    simp [List.dropWhile_cons, hx]

theorem stripWs_no (l : List Nat) (h : ∀ b ∈ l, isPyWs b = false) : stripWs l = l := by
  unfold stripWs
  rw [dropWhile_no l h, dropWhile_no l.reverse (fun b hb => h b (List.mem_reverse.mp hb)),
    List.reverse_reverse]

theorem parseDigits_all : ∀ (l : List Nat) (acc : Nat), (∀ b ∈ l, isDigit b = true) →
    parseDigits l acc = some (l.foldl (fun a b => a * 10 + (b - 48)) acc)
  | [], acc, _ => rfl
  | x :: xs, acc, h => by
    have hx : isDigit x = true := h x (by simp)
    have hstep : parseDigits (x :: xs) acc = parseDigits xs (acc * 10 + (x - 48)) := by
      conv_lhs => rw [parseDigits.eq_def]
      simp [hx]
    rw [hstep, List.foldl_cons]
    exact parseDigits_all xs _ (fun b hb => h b (List.mem_cons_of_mem _ hb))

theorem parseUnsigned_digits (d : List Nat) (xs : List Nat) (x : Nat)
    (hd : d = x :: xs) (h : ∀ b ∈ d, isDigit b = true) :
    parseUnsigned d = some (decToNat d) := by
  subst hd
  have hx : isDigit x = true := h x (by simp)
  simp only [parseUnsigned, if_pos hx]
  rw [parseDigits_all xs (x - 48) (fun b hb => h b (List.mem_cons_of_mem _ hb))]
  simp [decToNat]

/-- With two leading spaces the parse is unchanged. -/
theorem pyInt_twoSpace_digits (d : List Nat) (hd : ∀ b ∈ d, isDigit b = true)
    (hne : d ≠ []) : pyInt (32 :: 32 :: d) = some ((decToNat d : Nat) : Int) := by
  obtain ⟨x, xs, rfl⟩ := List.exists_cons_of_ne_nil hne
  have hsw : stripWs (32 :: 32 :: x :: xs) = x :: xs := by
    unfold stripWs
    rw [List.dropWhile_cons]
    have h32 : isPyWs 32 = true := by decide
    rw [if_pos h32, List.dropWhile_cons, if_pos h32,
      dropWhile_no _ (fun b hb => (digit_props (hd b hb)).1),
      dropWhile_no _ (fun b hb => (digit_props (hd b (List.mem_reverse.mp hb))).1),
      List.reverse_reverse]
  have hx := digit_props (hd x (by simp))
  simp only [pyInt, hsw, if_neg hx.2.2.2.1, if_neg hx.2.2.2.2.1]
  rw [parseUnsigned_digits _ xs x rfl hd]
  simp

/-- `int(b" +digits")`: explicit plus sign accepted. -/
theorem pyInt_plus_digits (d : List Nat) (hd : ∀ b ∈ d, isDigit b = true)
    (hne : d ≠ []) : pyInt (32 :: 43 :: d) = some ((decToNat d : Nat) : Int) := by
  obtain ⟨x, xs, rfl⟩ := List.exists_cons_of_ne_nil hne
  have hsw : stripWs (32 :: 43 :: x :: xs) = 43 :: x :: xs := by
    unfold stripWs
    rw [List.dropWhile_cons]
    have h32 : isPyWs 32 = true := by decide
    have hall : ∀ b ∈ 43 :: x :: xs, isPyWs b = false := by
      intro b hb
      rcases List.mem_cons.mp hb with hb | hb
      · subst hb; decide
      · exact (digit_props (hd b hb)).1
    rw [if_pos h32, dropWhile_no _ hall,
      dropWhile_no _ (fun b hb => hall b (List.mem_reverse.mp hb)), List.reverse_reverse]
  simp only [pyInt, hsw, if_pos rfl]
  rw [parseUnsigned_digits _ xs x rfl hd]
  simp

theorem pyNormIndex_zero (n : Nat) : pyNormIndex n 0 = 0 := by
  simp [pyNormIndex]

/-- Parsing any byte string of header shape — label (free of space and
NUL bytes), a space, a length field that `int()` reads as the payload
length, a NUL, and the payload — reaches the kind dispatch with the
label as `fmt` and the payload as the remaining bytes. -/
theorem parse_concat (lbl field p : List Nat)
    (h32 : ∀ b ∈ lbl, b ≠ 32) (hf : ∀ b ∈ field, b ≠ 0)
    (hint : pyInt (32 :: field) = some (p.length : Int)) :
    object_parse (lbl ++ 32 :: (field ++ 0 :: p)) =
      (if lbl = kindLabel .commit then .ok ⟨.commit, p⟩
       else if lbl = kindLabel .tree then .ok ⟨.tree, p⟩
       else if lbl = kindLabel .tag then .ok ⟨.tag, p⟩
       else if lbl = kindLabel .blob then .ok ⟨.blob, p⟩
       else .unknownType) := by
  set raw := lbl ++ 32 :: (field ++ 0 :: p) with hraw
  have hn : raw.length = lbl.length + (field.length + (p.length + 2)) := by
    simp [hraw]
    omega
  have hL : lbl.length ≤ raw.length := by omega
  have hx : objX raw = (lbl.length : Int) := by
    have h1 : findByte raw 32 = some lbl.length := findByte_app lbl _ h32
    simp [objX, pyFind, pyNormIndex_zero, h1]
  have hy : objY raw = ((lbl.length + (field.length + 1) : Nat) : Int) := by
    have hdrop : raw.drop lbl.length = 32 :: (field ++ 0 :: p) := dropLenApp lbl _
    have h2 : findByte (32 :: (field ++ 0 :: p)) 0 = some (field.length + 1) := by
      have hns : ∀ b ∈ 32 :: field, b ≠ 0 := by
        intro b hb
        rcases List.mem_cons.mp hb with hb | hb
        · omega
        · exact hf b hb
      have := findByte_app (32 :: field) p hns
      simpa using this
    unfold objY
    rw [hx]
    simp [pyFind, pyNormIndex_cast, Nat.min_eq_left hL, hdrop, h2]
  have hslice0 : pySlice raw (objX raw) (objY raw) = 32 :: field := by
    rw [hx, hy]
    have hb : lbl.length + (field.length + 1) ≤ raw.length := by omega
    have ht : raw.take (lbl.length + (field.length + 1)) = lbl ++ 32 :: field := by
      rw [hraw, takeLenAddApp]
      congr 1
      rw [List.take_succ_cons]
      congr 1
      exact takeLenApp field _
    simp only [pySlice, pyNormIndex_cast, Nat.min_eq_left hL, Nat.min_eq_left hb, ht]
    exact dropLenApp lbl _
  have hfmt0 : pySlice raw 0 (objX raw) = lbl := by
    rw [hx]
    simp only [pySlice, pyNormIndex_cast, pyNormIndex_zero, Nat.min_eq_left hL, List.drop_zero]
    rw [hraw]
    exact takeLenApp lbl _
  have hpay0 : pySlice raw (objY raw + 1) (raw.length : Int) = p := by
    rw [hy]
    have hcast : ((lbl.length + (field.length + 1) : Nat) : Int) + 1 =
        ((lbl.length + (field.length + 2) : Nat) : Int) := by push_cast; ring
    rw [hcast]
    have hb2 : lbl.length + (field.length + 2) ≤ raw.length := by omega
    simp only [pySlice, pyNormIndex_cast, Nat.min_eq_left hb2, Nat.min_self, List.take_length]
    rw [hraw, dropLenAddApp]
    rw [show field.length + 2 = (field.length + 1) + 1 from rfl, List.drop_succ_cons]
    rw [show field.length + 1 = field.length + 1 from rfl, dropLenAddApp field (0 :: p) 1]
    simp
  have hsize : ¬ ((p.length : Int) ≠ (raw.length : Int) - objY raw - 1) := by
    rw [hy]
    simp only [hn]
    push_cast
    omega
  unfold object_parse
  split
  · rename_i heq
    rw [hslice0, hint] at heq
    cases heq
  · rename_i size heq
    rw [hslice0, hint] at heq
    injection heq with heq'
    subst heq'
    rw [if_neg hsize, hfmt0, hpay0]

theorem kindLabel_no32 (k : ObjKind) : ∀ b ∈ kindLabel k, b ≠ 32 := by
  cases k <;> decide

theorem natToDec_no0 (n : Nat) : ∀ b ∈ natToDec n, b ≠ 0 :=
  fun b hb => (digit_props (natToDec_digits n b hb)).2.1

/-- C6: `b"blob 5\x00short"` decodes, `b"blob 10\x00short"` is malformed;
in general, whenever the length slice parses to `v`, decoding fails with
the malformed-object error exactly when `v` differs from the byte count
after the NUL. -/
theorem decode_length_check :
    object_parse blob5short = .ok ⟨.blob, shortBytes⟩ ∧
    object_parse blob10short = .malformed ∧
    (∀ (raw : List Nat) (v : Int), 0 ≤ objY raw →
      pyInt (pySlice raw (objX raw) (objY raw)) = some v →
      (object_parse raw = .malformed ↔ v ≠ (raw.length : Int) - objY raw - 1)) := by
  refine ⟨by decide, by decide, ?_⟩
  intro raw v _hy hv
  unfold object_parse
  split
  · rename_i heq
    rw [hv] at heq
    cases heq
  · rename_i size heq
    rw [hv] at heq
    injection heq with h
    subst h
    by_cases hc : v ≠ (raw.length : Int) - objY raw - 1
    · rw [if_pos hc]
      simp [hc]
    · rw [if_neg hc]
      refine iff_of_false (fun h => ?_) hc
      revert h
      split
      · intro h; cases h
      · split
        · intro h; cases h
        · split
          · intro h; cases h
          · split
            · intro h; cases h
            · intro h; cases h

/-- Witness for `decode_length_check` at `b"blob 10\x00short"`. -/
theorem decode_length_check_witness :
    object_parse blob10short = .malformed ↔
      (10 : Int) ≠ (blob10short.length : Int) - objY blob10short - 1 :=
  decode_length_check.2.2 blob10short 10 (by decide) (by decide)

theorem pyInt_twoSpaceLenField (n : Nat) :
    pyInt (32 :: (32 :: natToDec n)) = some (n : Int) := by
  rw [pyInt_twoSpace_digits (natToDec n) (natToDec_digits n) (natToDec_ne_nil n),
    decToNat_natToDec]

theorem pyInt_plusLenField (n : Nat) :
    pyInt (32 :: (43 :: natToDec n)) = some (n : Int) := by
  rw [pyInt_plus_digits (natToDec n) (natToDec_digits n) (natToDec_ne_nil n),
    decToNat_natToDec]

/-- C9: decoding accepts length fields with extra leading whitespace or
an explicit plus sign — both concretely on `b"blob  5\x00short"` and
`b"blob +5\x00short"` and generically for every kind and payload — and
yields the same object as the canonical encoding, although `encode`
never produces such byte strings. -/
theorem decode_lenient_length_field :
    object_parse blobTwoSpace = .ok ⟨.blob, shortBytes⟩ ∧
    object_parse blobPlus = .ok ⟨.blob, shortBytes⟩ ∧
    object_parse (object_encode .blob shortBytes) = .ok ⟨.blob, shortBytes⟩ ∧
    (∀ (k : ObjKind) (p : List Nat),
      object_parse (kindLabel k ++ 32 :: ((32 :: natToDec p.length) ++ 0 :: p)) = .ok ⟨k, p⟩ ∧
      object_parse (kindLabel k ++ 32 :: ((43 :: natToDec p.length) ++ 0 :: p)) = .ok ⟨k, p⟩) ∧
    (∀ (k : ObjKind) (p : List Nat),
      object_encode k p ≠ blobTwoSpace ∧ object_encode k p ≠ blobPlus) := by
  refine ⟨by decide, by decide, by decide, ?_, ?_⟩
  · intro k p
    constructor
    · have h := parse_concat (kindLabel k) (32 :: natToDec p.length) p (kindLabel_no32 k)
        (by
          intro b hb
          rcases List.mem_cons.mp hb with hb | hb
          · omega
          · exact natToDec_no0 p.length b hb)
        (pyInt_twoSpaceLenField p.length)
      rw [h]
      cases k <;> rfl
    · have h := parse_concat (kindLabel k) (43 :: natToDec p.length) p (kindLabel_no32 k)
        (by
          intro b hb
          rcases List.mem_cons.mp hb with hb | hb
          · omega
          · exact natToDec_no0 p.length b hb)
        (pyInt_plusLenField p.length)
      rw [h]
      cases k <;> rfl
  · intro k p
    obtain ⟨x, xs, hx⟩ := List.exists_cons_of_ne_nil (natToDec_ne_nil p.length)
    have hxd := digit_props (natToDec_digits p.length x (by rw [hx]; exact List.mem_cons_self x xs))
    constructor
    · intro h
      cases k <;> simp [object_encode, kindLabel, blobTwoSpace, hx] at h
      exact hxd.2.2.1 h.1
    · intro h
      cases k <;> simp [object_encode, kindLabel, blobPlus, hx] at h
      exact hxd.2.2.2.1 h.1

/-- C10 counterexample: `b"blob 5x"` contains no NUL byte at all (hence
none after the first space), yet decoding fails precisely with the
malformed-object error — not with an untyped conversion error. -/
theorem decode_no_nul_counterexample :
    (0 ∉ blob5x) ∧ object_parse blob5x = .malformed := by decide

/-- C10 (amended): when the computed length slice is empty or
non-numeric — e.g. `b"blobx"`, with neither space nor NUL — decoding
fails with the untyped conversion error, which is neither
`MalformedObject` nor `UnknownObjectType`; but not every NUL-free input
fails that way: `b"blob 5x"` fails with `MalformedObject` and
`b"blob 7x"` decodes successfully to a blob holding the whole input. -/
theorem decode_untyped_error_cases :
    (32 ∉ blobxBytes) ∧ (0 ∉ blobxBytes) ∧
    object_parse blobxBytes = .valueError ∧
    DecodeResult.valueError ≠ .malformed ∧ DecodeResult.valueError ≠ .unknownType ∧
    (0 ∉ blob7x) ∧ object_parse blob7x = .ok ⟨.blob, blob7x⟩ := by decide

/-- C1 (code bug): `repo_find` started three levels below an initialized
store never returns, for any recursion budget — line 142 recurses on the
same path instead of the parent — although the store is found when the
walk starts at the store root itself, and the spec's upward walk
(`discover_spec`) finds the store from the same start. -/
theorem repo_find_walk_stuck :
    (∀ fuel, repo_find_fuel storeFS fuel ["r", "a", "b", "c"] true = none) ∧
    repo_find_fuel storeFS 1 ["r"] true = some (.found ["r"]) ∧
    discover_spec storeFS 4 ["r", "a", "b", "c"] true = some (.found ["r"]) := by
  refine ⟨?_, by decide, by decide⟩
  intro fuel
  induction fuel with
  | zero => rfl
  | succ n ih =>
    simp only [repo_find_fuel]
    rw [if_neg (by decide), if_neg (by decide)]
    exact ih

/-- C2 (code bug): on a filesystem with no metadata directory anywhere,
`repo_find` started below the root never returns for any recursion
budget (with `required` true or false); only when started at the root
itself does it return "not found" or raise, as the claim describes. The
spec's upward walk terminates from the same start. -/
theorem repo_find_diverges_below_root :
    (∀ fuel, repo_find_fuel noGitFS fuel ["a"] false = none) ∧
    (∀ fuel, repo_find_fuel noGitFS fuel ["a"] true = none) ∧
    repo_find_fuel noGitFS 1 [] false = some .notFound ∧
    repo_find_fuel noGitFS 1 [] true = some .errNoGit ∧
    discover_spec noGitFS 2 ["a"] false = some .notFound := by
  refine ⟨?_, ?_, by decide, by decide, by decide⟩
  · intro fuel
    induction fuel with
    | zero => rfl
    | succ n ih =>
      simp only [repo_find_fuel]
      rw [if_neg (by decide), if_neg (by decide)]
      exact ih
  · intro fuel
    induction fuel with
    | zero => rfl
    | succ n ih =>
      simp only [repo_find_fuel]
      rw [if_neg (by decide), if_neg (by decide)]
      exact ih

/-! ## Key shape lemmas for `object_write` -/

theorem natToBytesBE_length (k : Nat) : ∀ n, (natToBytesBE k n).length = k := by
  induction k with
  | zero => intro n; rfl
  | succ m ih => intro n; simp [natToBytesBE, ih]

theorem natToBytesBE_lt (k : Nat) : ∀ n, ∀ b ∈ natToBytesBE k n, b < 256 := by
  induction k with
  | zero => intro n b hb; cases hb
  | succ m ih =>
    intro n b hb
    simp only [natToBytesBE, List.mem_append, List.mem_singleton] at hb
    rcases hb with hb | hb
    · exact ih (n / 256) b hb
    · subst hb; exact Nat.mod_lt n (by omega)

theorem bytesToHex_length : ∀ l : List Nat, (bytesToHex l).length = 2 * l.length
  | [] => rfl
  | b :: rest => by simp [bytesToHex, bytesToHex_length rest]; omega

theorem hexDigitByte_hex {n : Nat} (h : n < 16) : isHexDigit (hexDigitByte n) = true := by
  unfold hexDigitByte isHexDigit
  split <;> simp <;> omega

theorem bytesToHex_hex : ∀ l : List Nat, (∀ b ∈ l, b < 256) →
    ∀ b ∈ bytesToHex l, isHexDigit b = true
  | [], _ => by intro b hb; cases hb
  | x :: rest, h => by
    intro b hb
    have hx : x < 256 := h x (by simp)
    simp only [bytesToHex, List.mem_cons] at hb
    rcases hb with hb | hb | hb
    · subst hb; exact hexDigitByte_hex (by omega)
    · subst hb; exact hexDigitByte_hex (Nat.mod_lt x (by omega))
    · exact bytesToHex_hex rest (fun c hc => h c (List.mem_cons_of_mem _ hc)) b hb

theorem sha1_length (msg : List Nat) : (sha1 msg).length = 20 := by
  simp [sha1, natToBytesBE_length]

theorem sha1_bytes_lt (msg : List Nat) : ∀ b ∈ sha1 msg, b < 256 := by
  intro b hb
  simp only [sha1, List.mem_append] at hb
  rcases hb with ((((hb | hb) | hb) | hb) | hb) <;> exact natToBytesBE_lt 4 _ b hb

theorem sha1hexBytes_length (msg : List Nat) : (sha1hexBytes msg).length = 40 := by
  rw [sha1hexBytes, bytesToHex_length, sha1_length]

theorem sha1hexBytes_hex (msg : List Nat) : ∀ b ∈ sha1hexBytes msg, isHexDigit b = true :=
  bytesToHex_hex (sha1 msg) (sha1_bytes_lt msg)

theorem object_write_fst (z : Codec) (obj : GitObj) (repo : Option ObjStore) :
    (object_write z obj repo).1 = sha1hexBytes (object_encode obj.kind (objSerialize obj)) := by
  cases repo
  · rfl
  · simp only [object_write]
    split <;> rfl

/-- C5: writing an object twice in succession returns the same key both
times and leaves the store after the second write identical to the store
after the first; when the key's path already exists the write is a
no-op, whatever content (`c`) is already stored there. -/
theorem object_write_idempotent :
    (∀ (z : Codec) (obj : GitObj) (st : ObjStore),
      ∃ st1, (object_write z obj (some st)).2 = some st1 ∧
        object_write z obj (some st1) = ((object_write z obj (some st)).1, some st1)) ∧
    (∀ (z : Codec) (obj : GitObj) (st : ObjStore) (c : List Nat),
      st.lookup (sha1hexBytes (object_encode obj.kind (objSerialize obj))) = some c →
      object_write z obj (some st) =
        (sha1hexBytes (object_encode obj.kind (objSerialize obj)), some st)) := by
  constructor
  · intro z obj st
    by_cases h :
        (st.lookup (sha1hexBytes (object_encode obj.kind (objSerialize obj)))).isSome = true
    · exact ⟨st, by simp [object_write, h], by simp [object_write, h]⟩
    · refine ⟨(sha1hexBytes (object_encode obj.kind (objSerialize obj)),
        z.compress (object_encode obj.kind (objSerialize obj))) :: st, ?_, ?_⟩
      · simp [object_write, h]
      · simp [object_write, h, List.lookup]
  · intro z obj st c hc
    have h :
        (st.lookup (sha1hexBytes (object_encode obj.kind (objSerialize obj)))).isSome = true := by
      rw [hc]; rfl
    simp [object_write, h]

def garbageStore : ObjStore := [(sha1hexBytes (object_encode .blob []), [9, 9, 9])]

set_option maxRecDepth 10000 in
/-- Witness for `object_write_idempotent`: an existing entry under the
empty blob's key, holding arbitrary bytes `[9,9,9]`, is left untouched
by a write of the empty blob. -/
theorem object_write_idempotent_witness :
    object_write idCodec ⟨.blob, []⟩ (some garbageStore) =
      (sha1hexBytes (object_encode .blob []), some garbageStore) :=
  object_write_idempotent.2 idCodec ⟨.blob, []⟩ garbageStore [9, 9, 9] (by decide)

/-! ## Path-structure lemmas for the filesystem model -/

theorem appLeftCancel {α : Type} : ∀ (l a b : List α), l ++ a = l ++ b → a = b
  | [], _, _, h => h
  | _ :: xs, a, b, h => appLeftCancel xs a b (by injection h)

theorem preRefl {α : Type} (l : List α) : l <+: l := ⟨[], by simp⟩

theorem preApp {α : Type} (a b : List α) : a <+: a ++ b := ⟨b, rfl⟩

theorem preLength {α : Type} {a b : List α} (h : a <+: b) : a.length ≤ b.length := by
  obtain ⟨t, rfl⟩ := h
  simp

theorem preEqOfLength {α : Type} {a b : List α} (h : a <+: b)
    (hl : b.length ≤ a.length) : a = b := by
  obtain ⟨t, rfl⟩ := h
  have : t = [] := by
    have := List.length_append a t
    exact List.length_eq_zero.mp (by omega)
  simp [this]

theorem preCancel {α : Type} {l a b : List α} (h : l ++ a <+: l ++ b) : a <+: b := by
  obtain ⟨t, ht⟩ := h
  exact ⟨t, appLeftCancel l _ _ (by rw [← ht]; simp)⟩

theorem preTrans {α : Type} {a b c : List α} (h1 : a <+: b) (h2 : b <+: c) : a <+: c := by
  obtain ⟨t, rfl⟩ := h1
  obtain ⟨s, rfl⟩ := h2
  exact ⟨t ++ s, by simp⟩

theorem preCons {α : Type} {x y : α} {xs ys : List α} (h : x :: xs <+: y :: ys) :
    x = y ∧ xs <+: ys := by
  obtain ⟨t, ht⟩ := h
  injection ht with h1 h2
  exact ⟨h1, ⟨t, h2⟩⟩

theorem preComparable {α : Type} : ∀ {c a b : List α}, a <+: c → b <+: c →
    a <+: b ∨ b <+: a := by
  intro c
  induction c with
  | nil =>
    intro a b h1 h2
    obtain ⟨t, ht⟩ := h1
    rw [List.append_eq_nil] at ht
    exact Or.inl (by rw [ht.1]; exact ⟨b, by simp⟩)
  | cons x cs ih =>
    intro a b h1 h2
    cases a with
    | nil => exact Or.inl ⟨b, by simp⟩
    | cons y as =>
      cases b with
      | nil => exact Or.inr ⟨y :: as, by simp⟩
      | cons z bs =>
        obtain ⟨hy, h1'⟩ := preCons h1
        obtain ⟨hz, h2'⟩ := preCons h2
        subst hy
        subst hz
        rcases ih h1' h2' with h | h
        · obtain ⟨t, rfl⟩ := h
          exact Or.inl ⟨t, rfl⟩
        · obtain ⟨t, rfl⟩ := h
          exact Or.inr ⟨t, rfl⟩

theorem notMemInitsOfLonger {q r : FsPath} (h : r.length < q.length) : q ∉ r.inits := by
  intro hq
  have := preLength ((List.mem_inits _ _).mp hq)
  omega

theorem notMemInitsApp {g : FsPath} {a b : List String} (hlen : a.length = b.length)
    (hne : a ≠ b) : (g ++ a) ∉ (g ++ b).inits := by
  intro h
  have hp := (List.mem_inits _ _).mp h
  have hl : (g ++ b).length ≤ (g ++ a).length := by simp [hlen]
  exact hne (appLeftCancel g a b (preEqOfLength hp hl))

/-! ## Filesystem lemmas -/

theorem existsPath_iff_mem (fs : FS) (p : FsPath) :
    fs.existsPath p = true ↔ p ∈ fs.allPaths := by
  simp [FS.existsPath, FS.isDir, FS.isFile, FS.allPaths, List.mem_append]

theorem isFile_false_of_existsPath {fs : FS} {p : FsPath}
    (h : fs.existsPath p = false) : fs.isFile p = false := by
  revert h
  unfold FS.existsPath
  cases fs.isDir p <;> cases fs.isFile p <;> simp

theorem isDir_existsPath {fs : FS} {p : FsPath} (h : fs.isDir p = true) :
    fs.existsPath p = true := by
  simp [FS.existsPath, h]

theorem wf_ancestor {fs : FS} (hwf : fs.wf) {q r : FsPath} (hq : q ∈ fs.allPaths)
    (hr : r <+: q) (hne : r ≠ q) : r ∈ fs.dirs :=
  hwf.2 q hq r ((List.mem_inits _ _).mpr hr) hne

/-- Under a fresh path nothing exists at all. -/
theorem fresh_no_descendant {fs : FS} (hwf : fs.wf) {path : FsPath}
    (hfresh : fs.existsPath path = false) :
    ∀ q, path <+: q → fs.existsPath q = false := by
  intro q hpre
  by_cases hq : q = path
  · subst hq; exact hfresh
  by_contra hx
  have hq' : q ∈ fs.allPaths := (existsPath_iff_mem fs q).mp (by
    revert hx; cases fs.existsPath q <;> simp)
  have hd : path ∈ fs.dirs := wf_ancestor hwf hq' hpre (fun h => hq h.symm)
  have : fs.existsPath path = true := isDir_existsPath (by simp [FS.isDir, hd])
  rw [hfresh] at this
  cases this

theorem isFile_congr {fs fs' : FS} (h : fs'.files = fs.files) (p : FsPath) :
    fs'.isFile p = fs.isFile p := by
  simp [FS.isFile, FS.fileKeys, h]

theorem mkdirChain_files (fs : FS) (p : FsPath) : (fs.mkdirChain p).files = fs.files := rfl

theorem existsPath_mkdirChain (fs : FS) (p q : FsPath) :
    (fs.mkdirChain p).existsPath q = (decide (q ∈ p.inits) || fs.existsPath q) := by
  by_cases h : q ∈ p.inits <;>
    simp [FS.mkdirChain, FS.existsPath, FS.isDir, FS.isFile, FS.fileKeys, List.mem_append, h]

/-- `os.makedirs` succeeds when the target is absent and no component of
it is a regular file. -/
theorem makedirs_ok {fs : FS} {q : FsPath} (hne : fs.existsPath q = false)
    (h : ∀ r, r <+: q → fs.isFile r = false) :
    fs.makedirs q = .ok (fs.mkdirChain q) := by
  unfold FS.makedirs
  rw [if_neg (by simp [hne])]
  have hfind : q.inits.find? (fun r => fs.isFile r) = none := by
    rw [List.find?_eq_none]
    intro r hr
    rw [h r ((List.mem_inits _ _).mp hr)]
    simp
  rw [hfind]

theorem repo_dir_fresh {fs : FS} {q : FsPath} (hne : fs.existsPath q = false)
    (h : ∀ r, r <+: q → fs.isFile r = false) :
    repo_dir fs q = .ok (fs.mkdirChain q) := by
  unfold repo_dir
  rw [if_neg (by simp [hne]), makedirs_ok hne h]

/-- After a fresh initialization, a skeleton directory `gitdir ++ suf`
has no recorded descendant: the four leaf directories are empty. -/
theorem skeleton_hasChild_false (fs : FS) (path : FsPath) (hwf : fs.wf)
    (hfresh : fs.existsPath path = false) (suf : List String) (hne : suf ≠ [])
    (hrh : suf <+: ["refs", "heads"] → suf = ["refs", "heads"])
    (hrt : suf <+: ["refs", "tags"] → suf = ["refs", "tags"])
    (hob : suf <+: ["objects"] → suf = ["objects"])
    (hbr : suf <+: ["branches"] → suf = ["branches"])
    (hcf : ¬ suf <+: ["config"]) (hhd : ¬ suf <+: ["HEAD"])
    (hde : ¬ suf <+: ["description"]) :
    (skeletonFS fs path).hasChild (path ++ [gitDirName] ++ suf) = false := by
  have hE : ∀ q, path <+: q → fs.existsPath q = false := fresh_no_descendant hwf hfresh
  rw [FS.hasChild]
  apply decide_eq_false
  rintro ⟨q, hq, hneq, hpre⟩
  have hsufpos : 0 < suf.length := List.length_pos.mpr hne
  have hinits : ∀ s : List String, (suf <+: s → suf = s) →
      q <+: path ++ [gitDirName] ++ s → False := by
    intro s hs hqx
    have h1 : suf <+: s := preCancel (preTrans hpre hqx)
    have h2 := hs h1
    have hqx' : q <+: path ++ [gitDirName] ++ suf := by rw [h2]; exact hqx
    exact hneq (preEqOfLength hpre (preLength hqx'))
  have hfiles : ∀ s : List String, ¬ suf <+: s →
      q = path ++ [gitDirName] ++ s → False := by
    intro s hs hqx
    subst hqx
    exact hs (preCancel hpre)
  have hold : q ∈ fs.allPaths → False := by
    intro hq'
    have hpq : path <+: q :=
      preTrans ⟨[gitDirName] ++ suf, by simp⟩ hpre
    have := hE q hpq
    rw [(existsPath_iff_mem fs q).mpr hq'] at this
    cases this
  simp only [skeletonFS, FS.allPaths, FS.fileKeys, List.map_cons, List.mem_append,
    List.mem_cons, List.mem_inits] at hq
  rcases hq with (hc | hc | hc | hc | hc | hc) | hc | hc | hc | hc
  · exact hinits _ hrh hc
  · exact hinits _ hrt hc
  · exact hinits _ hob hc
  · exact hinits _ hbr hc
  · -- q <+: path
    have hlen := preLength (preTrans hpre hc)
    simp only [List.length_append, List.length_cons, List.length_nil] at hlen
    omega
  · exact hold (List.mem_append.mpr (Or.inl hc))
  · exact hfiles _ hcf hc
  · exact hfiles _ hhd hc
  · exact hfiles _ hde hc
  · exact hold (List.mem_append.mpr (Or.inr hc))

/-- C8: on a fresh path under a well-formed filesystem — with no
regular file at a strict ancestor of the path, where `os.makedirs`
would raise an `OSError` before building anything — `repo_create`
succeeds and produces exactly the skeleton: the four leaf directories
exist and are empty, the three metadata files hold exactly the fixed
texts, and everything recorded afterwards either existed before or lies
on the worktree path's spine (an ancestor of the worktree or inside
it). -/
theorem repo_create_fresh_skeleton (fs : FS) (path : FsPath) (hwf : fs.wf)
    (hfresh : fs.existsPath path = false)
    (hanc : ∀ q, q <+: path → q ≠ path → fs.isFile q = false) :
    repo_create fs path = .ok (skeletonFS fs path) ∧
    (skeletonFS fs path).isDir (path ++ [gitDirName] ++ ["branches"]) = true ∧
    (skeletonFS fs path).isDir (path ++ [gitDirName] ++ ["objects"]) = true ∧
    (skeletonFS fs path).isDir (path ++ [gitDirName] ++ ["refs", "tags"]) = true ∧
    (skeletonFS fs path).isDir (path ++ [gitDirName] ++ ["refs", "heads"]) = true ∧
    (skeletonFS fs path).hasChild (path ++ [gitDirName] ++ ["branches"]) = false ∧
    (skeletonFS fs path).hasChild (path ++ [gitDirName] ++ ["objects"]) = false ∧
    (skeletonFS fs path).hasChild (path ++ [gitDirName] ++ ["refs", "tags"]) = false ∧
    (skeletonFS fs path).hasChild (path ++ [gitDirName] ++ ["refs", "heads"]) = false ∧
    (skeletonFS fs path).files.lookup (path ++ [gitDirName] ++ ["description"]) =
      some descriptionText ∧
    (skeletonFS fs path).files.lookup (path ++ [gitDirName] ++ ["HEAD"]) = some headText ∧
    (skeletonFS fs path).files.lookup (path ++ [gitDirName] ++ ["config"]) = some configText ∧
    (∀ q, (skeletonFS fs path).existsPath q = true →
      fs.existsPath q = true ∨ q <+: path ∨ path <+: q) := by
  have hE : ∀ q, path <+: q → fs.existsPath q = false := fresh_no_descendant hwf hfresh
  have hgd0 : fs.existsPath (path ++ [gitDirName]) = false := hE _ (preApp _ _)
  have hfile : ∀ r t : FsPath, path <+: t → r <+: t → fs.isFile r = false := by
    intro r t hpt hrt2
    rcases preComparable hrt2 hpt with h | h
    · by_cases hrq : r = path
      · subst hrq
        exact isFile_false_of_existsPath hfresh
      · exact hanc r h hrq
    · exact isFile_false_of_existsPath (hE r h)
  have hb : (fs.mkdirChain path).existsPath (path ++ [gitDirName] ++ ["branches"]) = false := by
    rw [existsPath_mkdirChain,
      decide_eq_false (notMemInitsOfLonger (by
        simp only [List.length_append, List.length_cons, List.length_nil]; omega)),
      hE _ ⟨[gitDirName, "branches"], by simp⟩]
    rfl
  have ho : ((fs.mkdirChain path).mkdirChain
      (path ++ [gitDirName] ++ ["branches"])).existsPath
      (path ++ [gitDirName] ++ ["objects"]) = false := by
    rw [existsPath_mkdirChain, existsPath_mkdirChain,
      decide_eq_false (notMemInitsApp (by decide) (by decide)),
      decide_eq_false (notMemInitsOfLonger (by
        simp only [List.length_append, List.length_cons, List.length_nil]; omega)),
      hE _ ⟨[gitDirName, "objects"], by simp⟩]
    rfl
  have hrt : (((fs.mkdirChain path).mkdirChain
      (path ++ [gitDirName] ++ ["branches"])).mkdirChain
      (path ++ [gitDirName] ++ ["objects"])).existsPath
      (path ++ [gitDirName] ++ ["refs", "tags"]) = false := by
    rw [existsPath_mkdirChain, existsPath_mkdirChain, existsPath_mkdirChain,
      decide_eq_false (notMemInitsOfLonger (by
        simp only [List.length_append, List.length_cons, List.length_nil]; omega)),
      decide_eq_false (notMemInitsOfLonger (by
        simp only [List.length_append, List.length_cons, List.length_nil]; omega)),
      decide_eq_false (notMemInitsOfLonger (by
        simp only [List.length_append, List.length_cons, List.length_nil]; omega)),
      hE _ ⟨[gitDirName, "refs", "tags"], by simp⟩]
    rfl
  have hrh : ((((fs.mkdirChain path).mkdirChain
      (path ++ [gitDirName] ++ ["branches"])).mkdirChain
      (path ++ [gitDirName] ++ ["objects"])).mkdirChain
      (path ++ [gitDirName] ++ ["refs", "tags"])).existsPath
      (path ++ [gitDirName] ++ ["refs", "heads"]) = false := by
    rw [existsPath_mkdirChain, existsPath_mkdirChain, existsPath_mkdirChain,
      existsPath_mkdirChain,
      decide_eq_false (notMemInitsApp (by decide) (by decide)),
      decide_eq_false (notMemInitsOfLonger (by
        simp only [List.length_append, List.length_cons, List.length_nil]; omega)),
      decide_eq_false (notMemInitsOfLonger (by
        simp only [List.length_append, List.length_cons, List.length_nil]; omega)),
      decide_eq_false (notMemInitsOfLonger (by
        simp only [List.length_append, List.length_cons, List.length_nil]; omega)),
      hE _ ⟨[gitDirName, "refs", "heads"], by simp⟩]
    rfl
  have hmk : fs.makedirs path = .ok (fs.mkdirChain path) :=
    makedirs_ok hfresh (fun r hr => hfile r path (preRefl path) hr)
  have hfb : ∀ r, r <+: path ++ [gitDirName] ++ ["branches"] →
      (fs.mkdirChain path).isFile r = false := by
    intro r hr
    rw [isFile_congr (mkdirChain_files fs path)]
    exact hfile r _ ⟨[gitDirName, "branches"], by simp⟩ hr
  have hfo : ∀ r, r <+: path ++ [gitDirName] ++ ["objects"] →
      ((fs.mkdirChain path).mkdirChain
        (path ++ [gitDirName] ++ ["branches"])).isFile r = false := by
    intro r hr
    rw [isFile_congr (mkdirChain_files _ _), isFile_congr (mkdirChain_files _ _)]
    exact hfile r _ ⟨[gitDirName, "objects"], by simp⟩ hr
  have hft : ∀ r, r <+: path ++ [gitDirName] ++ ["refs", "tags"] →
      (((fs.mkdirChain path).mkdirChain
        (path ++ [gitDirName] ++ ["branches"])).mkdirChain
        (path ++ [gitDirName] ++ ["objects"])).isFile r = false := by
    intro r hr
    rw [isFile_congr (mkdirChain_files _ _), isFile_congr (mkdirChain_files _ _),
      isFile_congr (mkdirChain_files _ _)]
    exact hfile r _ ⟨[gitDirName, "refs", "tags"], by simp⟩ hr
  have hfh : ∀ r, r <+: path ++ [gitDirName] ++ ["refs", "heads"] →
      ((((fs.mkdirChain path).mkdirChain
        (path ++ [gitDirName] ++ ["branches"])).mkdirChain
        (path ++ [gitDirName] ++ ["objects"])).mkdirChain
        (path ++ [gitDirName] ++ ["refs", "tags"])).isFile r = false := by
    intro r hr
    rw [isFile_congr (mkdirChain_files _ _), isFile_congr (mkdirChain_files _ _),
      isFile_congr (mkdirChain_files _ _), isFile_congr (mkdirChain_files _ _)]
    exact hfile r _ ⟨[gitDirName, "refs", "heads"], by simp⟩ hr
  have hmain : repo_create fs path = .ok (skeletonFS fs path) := by
    simp only [repo_create, hgd0, hfresh, Bool.false_and, Bool.false_eq_true, if_false, hmk,
      repo_create_dirs, repo_dir_fresh hb hfb, repo_dir_fresh ho hfo, repo_dir_fresh hrt hft,
      repo_dir_fresh hrh hfh]
    rfl
  have hbne : ∀ (a b : List String), a ≠ b →
      ((path ++ [gitDirName] ++ a) == (path ++ [gitDirName] ++ b)) = false := by
    intro a b hab
    rw [beq_eq_false_iff_ne]
    intro h
    exact hab (appLeftCancel _ _ _ h)
  refine ⟨hmain, ?_, ?_, ?_, ?_, ?_, ?_, ?_, ?_, ?_, ?_, ?_, ?_⟩
  · rw [FS.isDir, decide_eq_true_eq]
    simp only [skeletonFS, List.mem_append, List.mem_inits]
    exact Or.inr (Or.inr (Or.inr (Or.inl (preRefl _))))
  · rw [FS.isDir, decide_eq_true_eq]
    simp only [skeletonFS, List.mem_append, List.mem_inits]
    exact Or.inr (Or.inr (Or.inl (preRefl _)))
  · rw [FS.isDir, decide_eq_true_eq]
    simp only [skeletonFS, List.mem_append, List.mem_inits]
    exact Or.inr (Or.inl (preRefl _))
  · rw [FS.isDir, decide_eq_true_eq]
    simp only [skeletonFS, List.mem_append, List.mem_inits]
    exact Or.inl (preRefl _)
  · exact skeleton_hasChild_false fs path hwf hfresh ["branches"] (by decide)
      (by decide) (by decide) (by decide) (by decide) (by decide) (by decide) (by decide)
  · exact skeleton_hasChild_false fs path hwf hfresh ["objects"] (by decide)
      (by decide) (by decide) (by decide) (by decide) (by decide) (by decide) (by decide)
  · exact skeleton_hasChild_false fs path hwf hfresh ["refs", "tags"] (by decide)
      (by decide) (by decide) (by decide) (by decide) (by decide) (by decide) (by decide)
  · exact skeleton_hasChild_false fs path hwf hfresh ["refs", "heads"] (by decide)
      (by decide) (by decide) (by decide) (by decide) (by decide) (by decide) (by decide)
  · simp only [skeletonFS, List.lookup, hbne ["description"] ["config"] (by decide),
      hbne ["description"] ["HEAD"] (by decide), beq_self_eq_true]
  · simp only [skeletonFS, List.lookup, hbne ["HEAD"] ["config"] (by decide),
      beq_self_eq_true]
  · simp only [skeletonFS, List.lookup, beq_self_eq_true]
  · intro q hq
    rw [existsPath_iff_mem] at hq
    simp only [skeletonFS, FS.allPaths, FS.fileKeys, List.map_cons, List.mem_append,
      List.mem_cons, List.mem_inits] at hq
    have hcomp : ∀ s : List String, q <+: path ++ [gitDirName] ++ s →
        q <+: path ∨ path <+: q := by
      intro s hqs
      exact preComparable hqs ⟨[gitDirName] ++ s, by simp⟩
    rcases hq with (hc | hc | hc | hc | hc | hc) | hc | hc | hc | hc
    · exact Or.inr (hcomp _ hc)
    · exact Or.inr (hcomp _ hc)
    · exact Or.inr (hcomp _ hc)
    · exact Or.inr (hcomp _ hc)
    · exact Or.inr (Or.inl hc)
    · exact Or.inl ((existsPath_iff_mem fs q).mpr (List.mem_append.mpr (Or.inl hc)))
    · subst hc
      exact Or.inr (Or.inr ⟨[gitDirName] ++ ["config"], by simp⟩)
    · subst hc
      exact Or.inr (Or.inr ⟨[gitDirName] ++ ["HEAD"], by simp⟩)
    · subst hc
      exact Or.inr (Or.inr ⟨[gitDirName] ++ ["description"], by simp⟩)
    · exact Or.inl ((existsPath_iff_mem fs q).mpr (List.mem_append.mpr (Or.inr hc)))

/-- Witness for `repo_create_fresh_skeleton`: initializing `/r` on a
filesystem holding only the root directory yields exactly the skeleton. -/
theorem repo_create_fresh_skeleton_witness :
    repo_create ⟨[[]], []⟩ ["r"] = .ok (skeletonFS ⟨[[]], []⟩ ["r"]) :=
  (repo_create_fresh_skeleton ⟨[[]], []⟩ ["r"] (by decide) (by decide)
    (by intro q h1 h2; simp [FS.isFile, FS.fileKeys])).1

/-- The spec's hello-world key, `"95d09f2b10159347eece71399a7e2e907ea3df4"`
as ASCII bytes — 39 characters. -/
def claimedKey39 : List Nat :=
  [57, 53, 100, 48, 57, 102, 50, 98, 49, 48, 49, 53, 57, 51, 52, 55, 101, 101, 99, 101,
   55, 49, 51, 57, 57, 97, 55, 101, 50, 101, 57, 48, 55, 101, 97, 51, 100, 102, 52]

/-- `"95d09f2b10159347eece71399a7e2e907ea3df4f"` as ASCII bytes — the
actual 40-character SHA-1 hex digest of `b"blob 11\x00hello world"`. -/
def actualKey40 : List Nat :=
  [57, 53, 100, 48, 57, 102, 50, 98, 49, 48, 49, 53, 57, 51, 52, 55, 101, 101, 99, 101,
   55, 49, 51, 57, 57, 97, 55, 101, 50, 101, 57, 48, 55, 101, 97, 51, 100, 102, 52, 102]

set_option maxRecDepth 10000 in
/-- C4 counterexample: the key `object_write` returns for the
hello-world blob is not the claim's 39-character key — the claim's key
is the true digest with its final hex character missing. -/
theorem write_hello_claimed_key_false :
    (object_write idCodec ⟨.blob, helloWorldBytes⟩ (some [])).1 ≠ claimedKey39 ∧
    claimedKey39.length = 39 ∧
    (object_write idCodec ⟨.blob, helloWorldBytes⟩ (some [])).1 =
      claimedKey39 ++ [102] := by decide

set_option maxRecDepth 10000 in
/-- C4 (amended): writing the hello-world blob returns exactly the
40-character key `95d09f2b10159347eece71399a7e2e907ea3df4f`; reading
that key back from the resulting store returns the blob with payload
`b"hello world"`; and every key `write` returns is the 40-character
lowercase-hexadecimal SHA-1 digest of the exact encoded byte sequence. -/
theorem write_read_hello_world (z : Codec)
    (hz : z.decompress (z.compress (object_encode .blob helloWorldBytes)) =
      object_encode .blob helloWorldBytes) :
    (object_write z ⟨.blob, helloWorldBytes⟩ (some [])).1 = actualKey40 ∧
    (object_write z ⟨.blob, helloWorldBytes⟩ (some [])).2 =
      some [(actualKey40, z.compress (object_encode .blob helloWorldBytes))] ∧
    object_read z [(actualKey40, z.compress (object_encode .blob helloWorldBytes))]
      actualKey40 = some (.ok ⟨.blob, helloWorldBytes⟩) ∧
    (∀ (obj : GitObj) (repo : Option ObjStore),
      (object_write z obj repo).1 = sha1hexBytes (object_encode obj.kind (objSerialize obj)) ∧
      (object_write z obj repo).1.length = 40 ∧
      ∀ b ∈ (object_write z obj repo).1, isHexDigit b = true) := by
  have hkey : sha1hexBytes (object_encode .blob helloWorldBytes) = actualKey40 := by decide
  refine ⟨?_, ?_, ?_, ?_⟩
  · rw [object_write_fst]
    exact hkey
  · simp only [object_write, List.lookup]
    rw [show objSerialize ⟨.blob, helloWorldBytes⟩ = helloWorldBytes from rfl]
    simp [hkey]
  · simp only [object_read, List.lookup, beq_self_eq_true]
    rw [hz]
    have : object_parse (object_encode .blob helloWorldBytes) = .ok ⟨.blob, helloWorldBytes⟩ := by
      decide
    rw [this]
  · intro obj repo
    refine ⟨object_write_fst z obj repo, ?_, ?_⟩
    · rw [object_write_fst, sha1hexBytes_length]
    · rw [object_write_fst]
      exact sha1hexBytes_hex _

set_option maxRecDepth 10000 in
/-- Witness for `write_read_hello_world`, at the identity codec (for
which decompress ∘ compress is definitionally the identity). -/
theorem write_read_hello_world_witness :
    (object_write idCodec ⟨.blob, helloWorldBytes⟩ (some [])).1 = actualKey40 :=
  (write_read_hello_world idCodec rfl).1
